import Mathlib

/-!
Verification of the SearchCenter result-aggregation and highlight pipeline.

This file is a shallow embedding of the merge/enrich/score pipeline of
src/services/searchService.ts (fetchGitHubRepositories, fetchGitHubCodeSnippets,
fetchSearchResults, calculateCombinedScore) and of the client-side highlight
engine of src/components/ResultsList.tsx (createSearchRegex,
getEnhancedCodeSnippet, calculateRepoScore) and
src/components/CodeBlock.tsx (createHighlightPattern).

Modelling conventions:
- JavaScript numbers are modelled as exact rationals (the arithmetic used by the
  scorers is additions, multiplications, divisions by constants, min and max,
  all order-compatible with binary64 evaluation at these magnitudes).
- Network effects are modelled by passing the settled outcome of each upstream
  request as an explicit parameter; the ambient clock is an explicit parameter
  (milliseconds since epoch, plus its ISO rendering where the code uses it).
- Strings are processed through char-list based functions mirroring the
  ECMAScript semantics used by the code (split, trim, toLowerCase, includes),
  restricted to ASCII case mapping.
- ECMAScript RegExp is modelled by a validity scanner (group balance, character
  classes, trailing escapes) plus a literal-pattern matcher; the patterns the
  application itself compiles are escaped literals, for which this model is
  exact. Stateful lastIndex behaviour of the g flag is not modelled; every
  property proved here only depends on per-line match outcomes that coincide
  with the stateful behaviour in the situations the claims quantify over.
-/

attribute [local semireducible] Rat.add Rat.mul Rat.inv Rat.sub

/-! ## ECMAScript string primitives -/

/-- Model of ECMAScript String.prototype.trim: drop whitespace from both ends. -/
def jsTrim (s : String) : String :=
  String.mk (((s.data.dropWhile Char.isWhitespace).reverse.dropWhile Char.isWhitespace).reverse)

/-- Model of ECMAScript String.prototype.toLowerCase, restricted to ASCII. -/
def jsToLower (s : String) : String :=
  String.mk (s.data.map Char.toLower)

mutual

/-- Helper for jsSplitWhitespace: accumulates the current token (reversed). -/
def jsSplitWsAux : List Char → List Char → List String
  | [], acc => [String.mk acc.reverse]
  | c :: cs, acc =>
    if c.isWhitespace then
      String.mk acc.reverse :: jsSplitWsSkipRun cs
    else
      jsSplitWsAux cs (c :: acc)

/-- Helper for jsSplitWhitespace: skips the remainder of a whitespace run and
starts the next token. -/
def jsSplitWsSkipRun : List Char → List String
  | [] => [""]
  | c :: cs =>
    if c.isWhitespace then jsSplitWsSkipRun cs
    else jsSplitWsAux cs [c]

end

/-- Model of ECMAScript s.split on a whitespace-run regex: maximal whitespace
runs separate the tokens; leading or trailing whitespace yields an empty
leading or trailing token, and splitting the empty string yields one empty
token, as in JavaScript. -/
def jsSplitWhitespace (s : String) : List String :=
  jsSplitWsAux s.data []

/-- Splits a character list at every occurrence of the separator; always
returns at least one (possibly empty) piece, like ECMAScript split. -/
def splitCharList (sep : Char) : List Char → List (List Char)
  | [] => [[]]
  | c :: cs =>
    if c = sep then [] :: splitCharList sep cs
    else
      match splitCharList sep cs with
      | [] => [[c]]
      | t :: ts => (c :: t) :: ts

/-- Joins character lists with the separator (ECMAScript Array.join). -/
def joinCharList (sep : Char) : List (List Char) → List Char
  | [] => []
  | [x] => x
  | x :: xs => x ++ sep :: joinCharList sep xs

/-- Model of ECMAScript s.split with a newline separator. -/
def jsSplitNewline (s : String) : List String :=
  (splitCharList '\n' s.data).map String.mk

/-- Model of ECMAScript lines.join with a newline separator. -/
def strJoinNewline (l : List String) : String :=
  String.mk (joinCharList '\n' (l.map String.data))

/-- Model of ECMAScript parts.join with a dot separator, used for file paths. -/
def jsSplitDot (s : String) : List String :=
  (splitCharList '.' s.data).map String.mk

/-- Case-sensitive substring test (ECMAScript String.prototype.includes);
the empty needle is contained in every string, as in JavaScript. -/
def strContains (hay needle : String) : Bool :=
  (List.range (hay.data.length + 1)).any
    (fun i => ((hay.data.drop i).take needle.data.length) == needle.data)

/-- Case-insensitive substring test, modelling a case-insensitive literal
regex test. -/
def strContainsCI (hay needle : String) : Bool :=
  strContains (jsToLower hay) (jsToLower needle)

/-- Fuel-driven helper for countOccurrences; fuel bounds the scan length so the
recursion is structural. -/
def countOccAux (needle : List Char) : Nat → List Char → Nat
  | 0, _ => 0
  | _ + 1, [] => 0
  | fuel + 1, c :: rest =>
    if ((c :: rest).take needle.length) == needle then
      1 + countOccAux needle fuel ((c :: rest).drop needle.length)
    else
      countOccAux needle fuel rest

/-- Number of non-overlapping, leftmost occurrences of a literal pattern, as
counted by ECMAScript s.match with a global literal regex; an empty pattern
matches at every position giving length + 1 matches, as in JavaScript. -/
def countOccurrences (needle hay : String) : Nat :=
  if needle.data = [] then hay.data.length + 1
  else countOccAux needle.data (hay.data.length + 1) hay.data

/-! ## ECMAScript RegExp model -/

/-- Characters escaped by the query-escaping replace calls in the source:
the class [.*+?^$\x7b\x7d()|[\]\\] (see createSearchRegex and the snippet
query-term escape in fetchGitHubCodeSnippets). -/
def isRegexSpecialChar (c : Char) : Bool :=
  c = '.' || c = '*' || c = '+' || c = '?' || c = '^' || c = '$' ||
  c = '\x7b' || c = '\x7d' || c = '(' || c = ')' || c = '|' ||
  c = '[' || c = ']' || c = '\\'

/-- Model of the escaping replace used by the source: every special character
is preceded by a backslash. -/
def escapeRegExp (s : String) : String :=
  String.mk (s.data.flatMap (fun c => if isRegexSpecialChar c then ['\\', c] else [c]))

/-- Scanner modelling ECMAScript RegExp pattern-compilation validity
(simplified): tracks group-parenthesis balance, character classes and trailing
escapes. A dangling open group, an unmatched closing group, an unterminated
class, or a pattern ending in a lone backslash is invalid; quantifier placement
is not checked, so this model accepts a superset of the valid patterns, which
is conservative for every property proved here. A lone closing bracket is a
literal, as in the ECMAScript Annex B grammar. -/
def scanRegexPattern : List Char → Nat → Bool → Bool
  | [], depth, inClass => depth == 0 && !inClass
  | '\\' :: rest, depth, inClass =>
    match rest with
    | [] => false
    | _ :: rest2 => scanRegexPattern rest2 depth inClass
  | '(' :: rest, depth, inClass =>
    if inClass then scanRegexPattern rest depth true
    else scanRegexPattern rest (depth + 1) false
  | ')' :: rest, depth, inClass =>
    if inClass then scanRegexPattern rest depth true
    else
      match depth with
      | 0 => false
      | d + 1 => scanRegexPattern rest d false
  | '[' :: rest, depth, inClass =>
    if inClass then scanRegexPattern rest depth true
    else scanRegexPattern rest depth true
  | ']' :: rest, depth, inClass =>
    if inClass then scanRegexPattern rest depth false
    else scanRegexPattern rest depth false
  | _ :: rest, depth, inClass => scanRegexPattern rest depth inClass

/-- Pattern validity: new RegExp(pattern) succeeds exactly when this holds, in
the simplified scanner model above. -/
def jsPatternValid (s : String) : Bool :=
  scanRegexPattern s.data 0 false

/-- Model of a compiled ECMAScript RegExp value: its source pattern and
whether the i flag was passed. -/
structure JsRegex where
  source : String
  ignoreCase : Bool
deriving DecidableEq, Repr

/-- Strips one level of backslash escaping. -/
def unescapeChars : List Char → List Char
  | [] => []
  | '\\' :: c :: cs => c :: unescapeChars cs
  | c :: cs => c :: unescapeChars cs

/-- Model of RegExp.prototype.test, exact for (alternation-free) escaped
literal patterns: the pattern, with escapes stripped, is searched for as a
substring, case-insensitively when the i flag is set. Every claim proved below
either quantifies over the per-line outcomes of this function or applies it to
literal patterns only. -/
def jsTest (r : JsRegex) (s : String) : Bool :=
  let literal := String.mk (unescapeChars r.source.data)
  if r.ignoreCase then strContainsCI s literal else strContains s literal

/-- Model of new Date(s).getTime(), restricted to strings of decimal digits
read as milliseconds since epoch; any other string is treated as an
unparsable date (NaN), whose comparisons are all false. GitHub timestamps are
valid dates, and no claim depends on the parsing function itself. -/
def jsDateGetTime (s : String) : Option Int :=
  (String.toNat? s).map Int.ofNat

/-- Model of the JavaScript expression o || d for an optional string o:
null, undefined and the empty string all fall through to the default. -/
def jsOrS (o : Option String) (d : String) : String :=
  match o with
  | some s => if s = "" then d else s
  | none => d

/-- Model of the JavaScript expression a || b for two strings (empty is
falsy). -/
def jsOrSS (a b : String) : String :=
  if a = "" then b else a

/-- Model of Array.prototype.join with separator "; ". -/
def joinSemicolon : List String → String
  | [] => ""
  | [x] => x
  | x :: xs => x ++ "; " ++ joinSemicolon xs

/-- Closed integer range [lo, hi] as a list, empty when hi < lo; used to model
the index-driven for loops of the snippet builder. -/
def intRange (lo hi : Int) : List Int :=
  (List.range (hi + 1 - lo).toNat).map (fun k : Nat => lo + (k : Int))

/-- Model of the JavaScript index access lines[i] for an integer index known
to be in range in the modelled loops (out-of-range access yields the empty
string in place of undefined; never reached in the modelled algorithm). -/
def jsIdx (lines : List String) (i : Int) : String :=
  if i < 0 then "" else lines.getD i.toNat ""

/-! ## Data model (src/types.ts and the shapes constructed in searchService.ts) -/

/-- Result kind tag of a SearchResult (types.ts). -/
inductive ResultType where
  | repository
  | code
  | community
deriving DecidableEq, Repr

/-- Owner information attached to repository and code results. -/
structure ResultOwner where
  login : String
  avatar_url : String
  url : Option String := none
deriving DecidableEq, Repr

/-- Normalized search result (types.ts SearchResult), restricted to the fields
read or written by the aggregation and rendering pipeline. Optional fields
model fields left undefined by one of the two construction paths. -/
structure SearchResult where
  id : String
  title : String
  type : ResultType
  source : String
  url : String
  description : Option String := none
  snippet : Option String := none
  lineNumbers : Option (List Int) := none
  path : Option String := none
  language : Option String := none
  stars : Option ℚ := none
  forks : Option ℚ := none
  watchers : Option ℚ := none
  openIssues : Option ℚ := none
  topics : Option (List String) := none
  license : Option String := none
  timestamp : String
  owner : Option ResultOwner := none
  hasRepoData : Bool := false
  apiSource : Option String := none
  score : Option ℚ := none
deriving DecidableEq, Repr

/-- Parsed item of a GitHub repository-search response, as read by
fetchGitHubRepositories. -/
structure RepoItem where
  id : Nat
  full_name : String
  html_url : String := ""
  description : Option String := none
  language : Option String := none
  stargazers_count : ℚ := 0
  forks_count : ℚ := 0
  watchers_count : ℚ := 0
  updated_at : String := ""
  owner_login : String := ""
  owner_avatar_url : String := ""
  owner_html_url : String := ""
  topics : Option (List String) := none
  open_issues_count : ℚ := 0
  license_name : Option String := none
deriving DecidableEq, Repr

/-- Parsed item of a GitHub code-search response, as read by
fetchGitHubCodeSnippets, together with the settled outcome of the per-item
raw-file-content fetch (none when that axios call failed or rejected; the
body is a string in the modelled raw-content mode). -/
structure CodeItem where
  repo_id : Nat
  sha : String
  repo_full_name : String
  html_url : String := ""
  path : String := ""
  language : Option String := none
  repo_updated_at : Option String := none
  repo_stargazers_count : Option ℚ := none
  owner_login : String := ""
  owner_avatar_url : String := ""
  contentFetch : Option String
deriving DecidableEq, Repr

/-- Failure of an upstream axios call, discriminated the way the catch blocks
of searchService.ts discriminate it: an HTTP response error with a status (and
the optional response-body message plus the error message), a request-level
error with an error code, or anything else. -/
inductive UpstreamFailure where
  | http (status : Nat) (apiMessage : Option String) (message : String)
  | network (code : String) (message : String)
  | other (message : String)
deriving DecidableEq, Repr

/-- Highlight-engine configuration (ResultsList.tsx SearchOptions). -/
structure SearchOptions where
  matchWholeWord : Bool
  matchCase : Bool
  useRegex : Bool
  highlightMatchesOnly : Bool
deriving DecidableEq, Repr

/-! ## searchService.ts -/

/-- Model of the catch blocks of fetchGitHubRepositories and
fetchGitHubCodeSnippets, which translate an axios failure into a
human-readable message. -/
def translateGitHubError : UpstreamFailure → String
  | .http 401 _ _ => "GitHub API authentication failed. Please check your API token."
  | .http 403 _ _ => "GitHub API rate limit exceeded. Please try again later."
  | .http 422 _ _ => "Invalid search query. Please check your search terms."
  | .http status apiMessage message =>
      "GitHub API error (" ++ toString status ++ "): " ++ jsOrS apiMessage message
  | .network code message =>
      if code = "ENOTFOUND" ∨ code = "ECONNREFUSED" then
        "Network error. Please check your internet connection."
      else "Search failed: " ++ message
  | .other message => "Search failed: " ++ message

/-- Mapping of a repository-search item to a SearchResult
(fetchGitHubRepositories, data.items.map). -/
def repoItemToResult (item : RepoItem) : SearchResult :=
  { id := "repo-" ++ toString item.id
    title := item.full_name
    type := ResultType.repository
    source := item.full_name
    url := item.html_url
    description := some (jsOrS item.description "No description available")
    language := some (jsOrS item.language "Unknown")
    stars := some item.stargazers_count
    forks := some item.forks_count
    watchers := some item.watchers_count
    timestamp := item.updated_at
    owner := some { login := item.owner_login, avatar_url := item.owner_avatar_url,
                    url := some item.owner_html_url }
    topics := some (item.topics.getD [])
    openIssues := some item.open_issues_count
    license := item.license_name }

/-- Model of fetchGitHubRepositories given the settled outcome of the
repository-search request (response parsing and URL construction are absorbed
into the outcome parameter). -/
def fetchGitHubRepositoriesM (query : String)
    (outcome : Except UpstreamFailure (List RepoItem)) :
    Except String (List SearchResult) :=
  if jsTrim query = "" then .error "Search query cannot be empty"
  else
    match outcome with
    | .error f => .error (translateGitHubError f)
    | .ok items => .ok (items.map repoItemToResult)

/-- Query terms used to locate matching lines in a fetched file: the
whitespace-split tokens of the trimmed query that are longer than 2
characters (fetchGitHubCodeSnippets). -/
def codeQueryTerms (query : String) : List String :=
  (jsSplitWhitespace (jsTrim query)).filter (fun term => term.length > 2)

/-- Model of queryRegex.test(line) in fetchGitHubCodeSnippets: the regex is a
case-insensitive alternation of the escaped query terms, hence a line matches
exactly when some term occurs in it case-insensitively; with no terms the
pattern is empty and matches every line, as in JavaScript. -/
def codeLineMatches (query : String) (line : String) : Bool :=
  let terms := codeQueryTerms query
  terms.isEmpty || terms.any (fun term => strContainsCI line term)

/-- Helper for matchingLineIndices: forEach with a running index. -/
def matchingIdxAux (p : String → Bool) : Nat → List String → List Nat
  | _, [] => []
  | i, line :: rest =>
    if p line then i :: matchingIdxAux p (i + 1) rest
    else matchingIdxAux p (i + 1) rest

/-- Indices of the lines satisfying the match predicate, in order
(fetchGitHubCodeSnippets, lines.forEach collecting matchingLineIndices). -/
def matchingLineIndices (p : String → Bool) (lines : List String) : List Nat :=
  matchingIdxAux p 0 lines

/-- Loop state of the snippet builder of fetchGitHubCodeSnippets: the two
parallel arrays pushed in lockstep, and the last file line already added. -/
structure SnipState where
  snippetLines : List String
  lineNumbers : List Int
  lastLineAdded : Int
deriving DecidableEq, Repr

/-- One iteration of the snippet-builder loop over a matched line index:
extend the previous context window when the new window overlaps or touches
it, otherwise push a separator (unless the snippet is still empty) and the
new window. -/
def snipStep (lines : List String) (st : SnipState) (matchedLine : Nat) : SnipState :=
  let contextSize : Int := 2
  let startLine : Int := max 0 ((matchedLine : Int) - contextSize)
  let endLine : Int := min ((lines.length : Int) - 1) ((matchedLine : Int) + contextSize)
  if startLine ≤ st.lastLineAdded + 1 then
    { snippetLines := st.snippetLines ++ (intRange (st.lastLineAdded + 1) endLine).map (fun i => jsIdx lines i)
      lineNumbers := st.lineNumbers ++ (intRange (st.lastLineAdded + 1) endLine).map (fun i => i + 1)
      lastLineAdded := endLine }
  else
    let withSep : SnipState :=
      if st.snippetLines.length > 0 then
        { st with snippetLines := st.snippetLines ++ ["..."],
                  lineNumbers := st.lineNumbers ++ [-1] }
      else st
    { snippetLines := withSep.snippetLines ++ (intRange startLine endLine).map (fun i => jsIdx lines i)
      lineNumbers := withSep.lineNumbers ++ (intRange startLine endLine).map (fun i => i + 1)
      lastLineAdded := endLine }

/-- The context-window snippet builder of fetchGitHubCodeSnippets: the matched
snippet lines and their 1-based line numbers, with -1 marking separator
lines. -/
def buildSnippet (lines : List String) (matchingIdx : List Nat) :
    List String × List Int :=
  let st := matchingIdx.foldl (snipStep lines)
    { snippetLines := [], lineNumbers := [], lastLineAdded := -1 }
  (st.snippetLines, st.lineNumbers)

/-- Construction of one code SearchResult from a code-search item and its
fetched file content (the per-item closure of fetchGitHubCodeSnippets).
nowIso is the value new Date().toISOString() would produce, used as the
timestamp fallback. -/
def buildCodeResult (query nowIso : String) (item : CodeItem) (content : String) :
    SearchResult :=
  let lines := jsSplitNewline content
  let fileExt := jsToLower ((jsSplitDot item.path).getLastD "")
  let language := jsOrSS (jsOrS item.language fileExt) "Unknown"
  let matching := matchingLineIndices (codeLineMatches query) lines
  let snippetAndNums :=
    if matching.isEmpty then
      (strJoinNewline (lines.take 10), (List.range 10).map (fun i : Nat => (i : Int) + 1))
    else
      let built := buildSnippet lines matching
      (strJoinNewline built.1, built.2)
  { id := toString item.repo_id ++ "-" ++ item.sha
    title := item.repo_full_name
    type := ResultType.code
    source := item.repo_full_name
    url := item.html_url
    path := some item.path
    snippet := some snippetAndNums.1
    lineNumbers := some snippetAndNums.2
    language := some language
    timestamp := jsOrS item.repo_updated_at nowIso
    stars := item.repo_stargazers_count
    owner := some { login := item.owner_login, avatar_url := item.owner_avatar_url } }

/-- Per-item processing of fetchGitHubCodeSnippets: a failed content fetch is
caught and mapped to null, which the final filter removes. -/
def processCodeItem (query nowIso : String) (item : CodeItem) : Option SearchResult :=
  match item.contentFetch with
  | none => none
  | some content => some (buildCodeResult query nowIso item content)

/-- The results fetchGitHubCodeSnippets assembles from the code-search items:
each item is processed independently and null outcomes are filtered out. -/
def codeItemsToResults (query nowIso : String) (items : List CodeItem) :
    List SearchResult :=
  items.filterMap (processCodeItem query nowIso)

/-- Model of fetchGitHubCodeSnippets given the settled outcome of the
code-search request. -/
def fetchGitHubCodeSnippetsM (query nowIso : String)
    (outcome : Except UpstreamFailure (List CodeItem)) :
    Except String (List SearchResult) :=
  if jsTrim query = "" then .error "Search query cannot be empty"
  else
    match outcome with
    | .error f => .error (translateGitHubError f)
    | .ok items => .ok (codeItemsToResults query nowIso items)

/-- Snippet contribution of calculateCombinedScore: for each query term, a
global regex is compiled from the raw term (this throws on an invalid pattern,
modelled as an error) and min(2 times the occurrence count, 20) is added. -/
def snippetTermsScore (snippetLower : String) : List String → Except String ℚ
  | [] => .ok 0
  | term :: rest =>
    if jsPatternValid term then
      match snippetTermsScore snippetLower rest with
      | .error e => .error e
      | .ok acc =>
        .ok (min ((countOccurrences term snippetLower : ℚ) * 2) 20 + acc)
    else
      .error "SyntaxError: Invalid regular expression"

/-- Model of calculateCombinedScore (searchService.ts). now is
Date.now-style milliseconds. The function is fallible because the snippet
contribution compiles each raw query term with new RegExp, which throws on an
invalid pattern. Truthiness tests of the source (if (result.stars)) are
modelled by the corresponding zero, empty or null checks. -/
def calculateCombinedScore (result : SearchResult) (query : String) (now : Int) :
    Except String ℚ :=
  let starsScore : ℚ :=
    match result.stars with
    | some s => if s ≠ 0 then min (s / 100) 50 else 0
    | none => 0
  let typeScore : ℚ := if result.type = ResultType.repository then 10 else 0
  let enrichScore : ℚ :=
    if result.type = ResultType.code ∧ result.hasRepoData then 5 else 0
  let queryTerms := jsSplitWhitespace (jsToLower query)
  let titleScore : ℚ :=
    if result.title ≠ "" then
      let titleLower := jsToLower result.title
      queryTerms.foldl (fun acc term =>
        if strContains titleLower term then
          acc + 15 + (if titleLower = term then 10 else 0)
        else acc) 0
    else 0
  let descScore : ℚ :=
    match result.description with
    | some d =>
      if d ≠ "" then
        let descLower := jsToLower d
        queryTerms.foldl (fun acc term =>
          if strContains descLower term then acc + 5 else acc) 0
      else 0
    | none => 0
  let snippetScoreE : Except String ℚ :=
    match result.snippet with
    | some sn => if sn ≠ "" then snippetTermsScore (jsToLower sn) queryTerms else .ok 0
    | none => .ok 0
  let freshScore : ℚ :=
    if result.timestamp ≠ "" then
      match jsDateGetTime result.timestamp with
      | some t =>
        let daysSinceUpdate : ℚ := ((now : ℚ) - (t : ℚ)) / (1000 * 60 * 60 * 24)
        if daysSinceUpdate < 7 then 10
        else if daysSinceUpdate < 30 then 5
        else if daysSinceUpdate < 90 then 2
        else 0
      | none => 0
    else 0
  match snippetScoreE with
  | .error e => .error e
  | .ok snippetScore =>
    .ok (starsScore + typeScore + enrichScore + titleScore + descScore +
          snippetScore + freshScore)

/-- Name attached to repository results (apiSources[1] in
fetchSearchResults). -/
def apiSourceReposName : String := "GitHub Repositories API"

/-- Name attached to code results (apiSources[0] in fetchSearchResults). -/
def apiSourceCodeName : String := "GitHub Code API"

/-- The repository results with their api-source annotation, as built inside
fetchSearchResults. -/
def repoResultsOf (githubRepos : List SearchResult) : List SearchResult :=
  githubRepos.map (fun repo => { repo with apiSource := some apiSourceReposName })

/-- The code results with their api-source annotation, as built inside
fetchSearchResults. -/
def codeResultsOf (codeSnippets : List SearchResult) : List SearchResult :=
  codeSnippets.map (fun code => { code with apiSource := some apiSourceCodeName })

/-- Lookup in the repository map built by repoDataMap.set over the repository
results in order: a later result with the same source overwrites an earlier
one, so the lookup finds the last occurrence. -/
def repoLookup (repoResults : List SearchResult) (src : String) :
    Option SearchResult :=
  repoResults.reverse.find? (fun repo => repo.source == src)

/-- Enrichment of one code result with the metadata of the fetched repository
of the same source (fetchSearchResults); an empty source is falsy and skips
the lookup, as in the source. -/
def enrichCodeResult (repoResults : List SearchResult) (codeResult : SearchResult) :
    SearchResult :=
  if codeResult.source ≠ "" then
    match repoLookup repoResults codeResult.source with
    | some matchingRepo =>
      { codeResult with
          stars := matchingRepo.stars
          forks := matchingRepo.forks
          watchers := matchingRepo.watchers
          openIssues := matchingRepo.openIssues
          license := matchingRepo.license
          topics := matchingRepo.topics
          hasRepoData := true }
    | none => codeResult
  else codeResult

/-- The merged, unscored result list of fetchSearchResults: top 3 repositories
first, then the enriched code results, then the remaining repositories. -/
def mergeResults (repoResults enrichedCodeResults : List SearchResult) :
    List SearchResult :=
  repoResults.take 3 ++ enrichedCodeResults ++
    (if repoResults.length > 3 then repoResults.drop 3 else [])

/-- The final scoring map of fetchSearchResults: each result gets its combined
score; the first scoring error aborts the whole map, as a thrown exception
does in the source. -/
def mapScores (query : String) (now : Int) :
    List SearchResult → Except String (List SearchResult)
  | [] => .ok []
  | result :: rest =>
    match calculateCombinedScore result query now with
    | .error e => .error e
    | .ok score =>
      match mapScores query now rest with
      | .error e => .error e
      | .ok scoredRest => .ok ({ result with score := some score } :: scoredRest)

/-- Model of fetchSearchResults (searchService.ts): input validation, the
all-settled pair of upstream fetches (passed as outcome parameters),
partial-failure handling, the two total-failure errors, merge, enrichment and
scoring. The outer catch re-throws with the same message, so it is the
identity on this model's errors. -/
def fetchSearchResults (query : String) (now : Int) (nowIso : String)
    (repoOutcome : Except UpstreamFailure (List RepoItem))
    (codeOutcome : Except UpstreamFailure (List CodeItem)) :
    Except String (List SearchResult) :=
  if jsTrim query = "" then .error "Search query cannot be empty"
  else
    let repoSettled := fetchGitHubRepositoriesM query repoOutcome
    let codeSettled := fetchGitHubCodeSnippetsM query nowIso codeOutcome
    let githubRepos := match repoSettled with | .ok l => l | .error _ => []
    let codeSnippets := match codeSettled with | .ok l => l | .error _ => []
    let errors :=
      (match repoSettled with
       | .error e => ["Repository search: " ++ e]
       | .ok _ => []) ++
      (match codeSettled with
       | .error e => ["Code search: " ++ e]
       | .ok _ => [])
    if githubRepos.isEmpty && codeSnippets.isEmpty then
      if errors.isEmpty then
        .error "No results found for your search query. Try different search terms."
      else
        .error ("Search failed: " ++ joinSemicolon errors)
    else
      let repoResults := repoResultsOf githubRepos
      let codeResults := codeResultsOf codeSnippets
      let enrichedCodeResults := codeResults.map (enrichCodeResult repoResults)
      let combinedResults := mergeResults repoResults enrichedCodeResults
      mapScores query now combinedResults

/-! ## ResultsList.tsx and CodeBlock.tsx -/

/-- Model of Array.join with separator bar, used to build alternation
patterns. -/
def joinBar : List String → String
  | [] => ""
  | [x] => x
  | x :: xs => x ++ "|" ++ joinBar xs

/-- Model of createSearchRegex (ResultsList.tsx): builds the highlight regex
from the current search options; an empty (or whitespace-only) query gives no
regex, and a compilation failure is caught and gives no regex. -/
def createSearchRegex (opts : SearchOptions) (query : String) : Option JsRegex :=
  if jsTrim query = "" then none
  else
    let pattern :=
      if opts.useRegex then query
      else
        let escaped := escapeRegExp query
        let withBoundary :=
          if opts.matchWholeWord then "\\b" ++ escaped ++ "\\b" else escaped
        if ¬ opts.matchWholeWord then
          let terms := (jsSplitWhitespace withBoundary).filter (fun t => t.length > 0)
          if terms.length > 1 then "(" ++ joinBar terms ++ ")" else withBoundary
        else withBoundary
    if jsPatternValid pattern then
      some { source := pattern, ignoreCase := !opts.matchCase }
    else none

/-- Model of createHighlightPattern (CodeBlock.tsx): a case-insensitive group
around the escaped trimmed query; an empty query or a compilation failure
gives no pattern. -/
def createHighlightPattern (query : String) : Option JsRegex :=
  if jsTrim query = "" then none
  else
    let pattern := "(" ++ escapeRegExp (jsTrim query) ++ ")"
    if jsPatternValid pattern then
      some { source := pattern, ignoreCase := true }
    else none

/-- One rendered line of the code-snippet block of getEnhancedCodeSnippet:
either the ellipsis separator row, or a content row with its displayed line
number, its text and whether it was highlighted as a match. -/
inductive RenderedLine where
  | separator
  | content (lineNum : Option Int) (text : String) (highlighted : Bool)
deriving DecidableEq, Repr

/-- The line-processing map of getEnhancedCodeSnippet over the snippet lines
with their parallel line numbers: separator rows render as dividers, and with
highlightMatchesOnly enabled the non-matching content rows are dropped
entirely (the source maps them to null and filters). -/
def renderSnippetAux (searchRegex : Option JsRegex) (matchesOnly : Bool)
    (nums : List Int) : Nat → List String → List RenderedLine
  | _, [] => []
  | idx, line :: rest =>
    if nums.get? idx = some (-1) then
      RenderedLine.separator ::
        renderSnippetAux searchRegex matchesOnly nums (idx + 1) rest
    else
      let isMatchingLine :=
        match searchRegex with
        | some r => jsTest r line
        | none => false
      if matchesOnly && !isMatchingLine then
        renderSnippetAux searchRegex matchesOnly nums (idx + 1) rest
      else
        RenderedLine.content (nums.get? idx) line isMatchingLine ::
          renderSnippetAux searchRegex matchesOnly nums (idx + 1) rest

/-- Helper for snippetMatchCount: the filter of getEnhancedCodeSnippet that
counts matching lines, skipping separator rows. -/
def snippetMatchCountAux (r : JsRegex) (nums : List Int) :
    Nat → List String → Nat
  | _, [] => 0
  | idx, line :: rest =>
    (if nums.get? idx ≠ some (-1) ∧ jsTest r line = true then 1 else 0) +
      snippetMatchCountAux r nums (idx + 1) rest

/-- Match count reported in the matches-found footer: the number of
non-separator lines matching the search regex (a per-line count, not a
per-occurrence count); zero when there is no regex. -/
def snippetMatchCount (searchRegex : Option JsRegex) (nums : List Int)
    (lines : List String) : Nat :=
  match searchRegex with
  | none => 0
  | some r => snippetMatchCountAux r nums 0 lines

/-- Model of the snippet block produced by getEnhancedCodeSnippet
(ResultsList.tsx) for a result whose snippet has pre-calculated line numbers:
the rendered rows and the reported match count. A falsy snippet yields no
block; the fallback rendering for snippets without line numbers is a separate
presentation path not modelled here (no claim refers to it). -/
def getEnhancedCodeSnippet (opts : SearchOptions) (result : SearchResult)
    (query : String) : Option (List RenderedLine × Nat) :=
  match result.snippet with
  | none => none
  | some snippet =>
    if snippet = "" then none
    else
      let lineNumbers := result.lineNumbers.getD []
      let searchRegex := createSearchRegex opts query
      if lineNumbers.length > 0 then
        let lines := jsSplitNewline snippet
        some (renderSnippetAux searchRegex opts.highlightMatchesOnly lineNumbers 0 lines,
              snippetMatchCount searchRegex lineNumbers lines)
      else none

/-- Model of calculateRepoScore (ResultsList.tsx), the list-level sort score:
stars, forks and watchers weighted, an open-issues penalty capped at 20, a
freshness bonus, clamped at 0. An unparsable timestamp is modelled as a zero
age contribution (GitHub timestamps are valid dates). -/
def calculateRepoScore (now : Int) (result : SearchResult) : ℚ :=
  let starsPart : ℚ :=
    match result.stars with
    | some s => if s ≠ 0 then s * 3 else 0
    | none => 0
  let forksPart : ℚ :=
    match result.forks with
    | some f => if f ≠ 0 then f * 2 else 0
    | none => 0
  let watchersPart : ℚ :=
    match result.watchers with
    | some w => if w ≠ 0 then w else 0
    | none => 0
  let issuesPenalty : ℚ :=
    match result.openIssues with
    | some openIssues => min (openIssues / 10) 20
    | none => 0
  let agePart : ℚ :=
    if result.timestamp ≠ "" then
      match jsDateGetTime result.timestamp with
      | some t =>
        let ageInDays : ℚ := ((now : ℚ) - (t : ℚ)) / (1000 * 60 * 60 * 24)
        max 0 (50 - ageInDays / 2)
      | none => 0
    else 0
  max 0 (starsPart + forksPart + watchersPart - issuesPenalty + agePart)

/-- Model of the render-time sort of ResultsList:
results.sort((a, b) => calculateRepoScore(b) - calculateRepoScore(a)).
Array.prototype.sort is a stable sort agreeing with the comparator, and a
stable sort with respect to a total preorder has a unique result, here given
by stable insertion sort: descending calculateRepoScore, ties in input
order. -/
def uiSortResults (now : Int) (results : List SearchResult) : List SearchResult :=
  List.insertionSort
    (fun a b => calculateRepoScore now b ≤ calculateRepoScore now a) results

/-- A result list is ordered by the stored composite score when every later
element's score is at most every earlier element's (non-increasing order of
the score field assigned by fetchSearchResults). -/
def sortedByCombinedScore (results : List SearchResult) : Prop :=
  results.Sorted (fun a b => b.score.getD 0 ≤ a.score.getD 0)

/-- The snippet and line-number invariant claimed for code results: the line
numbers are exactly as many as the snippet lines, and a -1 entry only ever
sits next to the ellipsis separator line, never next to a content line. -/
def snippetLineInvariant (result : SearchResult) : Bool :=
  match result.lineNumbers, result.snippet with
  | some nums, some snippet =>
    let lines := jsSplitNewline snippet
    nums.length == lines.length &&
      (nums.zip lines).all (fun p => !(p.1 == -1) || p.2 == "...")
  | _, _ => true

/-! ## Auxiliary predicates and concrete example inputs -/

/-- Invariant maintained by the snippet-builder loop state: the two parallel
arrays have equal length, a -1 line number is only ever paired with the
ellipsis separator line, and the last added line never drops below the
initial -1. -/
def snipInvariant (st : SnipState) : Prop :=
  st.lineNumbers.length = st.snippetLines.length ∧
  (∀ q ∈ st.lineNumbers.zip st.snippetLines, q.1 = -1 → q.2 = "...") ∧
  -1 ≤ st.lastLineAdded

/-- Code-search item used in the counterexample run for the no-throw claim:
the content fetch succeeds with a two-line file. -/
def c1CodeItem : CodeItem :=
  { repo_id := 5, sha := "s", repo_full_name := "o/r",
    contentFetch := some "hello\nworld" }

/-- Repository item with an empty full name, used in the enrichment
counterexample run. -/
def c3RepoItem : RepoItem :=
  { id := 3, full_name := "", stargazers_count := 7 }

/-- Code item whose repository full name is also empty, used in the
enrichment counterexample run. -/
def c3CodeItem : CodeItem :=
  { repo_id := 9, sha := "t", repo_full_name := "", contentFetch := some "x" }

/-- Repository item with a matching non-empty source, used in the enrichment
witness run. -/
def c3wRepoItem : RepoItem :=
  { id := 4, full_name := "o/r", stargazers_count := 900, forks_count := 12,
    watchers_count := 34, open_issues_count := 2,
    license_name := some "MIT License", topics := some ["search"] }

/-- Code item over the same repository, used in the enrichment witness run. -/
def c3wCodeItem : CodeItem :=
  { repo_id := 4, sha := "w", repo_full_name := "o/r",
    contentFetch := some "zzz here" }

/-- The output list of the enrichment witness run. -/
def c3wOutput : List SearchResult :=
  (fetchSearchResults "zzz" 0 "" (.ok [c3wRepoItem]) (.ok [c3wCodeItem])).toOption.getD []

/-- Placeholder result used only to read elements out of concrete runs. -/
def dummyResult : SearchResult :=
  { id := "", title := "", type := ResultType.community, source := "", url := "",
    timestamp := "" }

/-- Code item over a one-line file, used in the line-number invariant
counterexample (the fallback snippet keeps 10 hard-coded line numbers). -/
def c4Item : CodeItem :=
  { repo_id := 1, sha := "a", repo_full_name := "o/r", contentFetch := some "foo" }

/-- Eight-line file with matching lines at indices 0 and 5, exactly 5 lines
apart: the two context windows touch and are merged without a separator. -/
def c5Lines : List String := ["m", "a", "b", "c", "d", "m", "e", "f"]

/-- Ten-line file with matching lines at indices 0 and 6, more than 5 lines
apart: the windows are disjoint and separated. -/
def c5wLines : List String := ["m", "a", "b", "c", "d", "e", "m", "f", "g", "h"]

/-- Repository item with many stars and a title unrelated to the query, used
in the ordering counterexample run. -/
def c8RepoA : RepoItem :=
  { id := 1, full_name := "aaa/bbb", stargazers_count := 100 }

/-- Repository item with no stars whose title is exactly the query, used in
the ordering counterexample run. -/
def c8RepoB : RepoItem :=
  { id := 2, full_name := "zzz" }

/-- The output list of the ordering counterexample run. -/
def c8Output : List SearchResult :=
  (fetchSearchResults "zzz" 0 "" (.ok [c8RepoA, c8RepoB]) (.ok [])).toOption.getD []

/-- Code item whose per-item content fetch failed, used in the
silent-omission witness run. -/
def c10BadItem : CodeItem :=
  { repo_id := 7, sha := "x", repo_full_name := "o/r", contentFetch := none }

/-- Five-line snippet result in which only the third line contains the query,
used in the highlight-matches-only witness run. -/
def c6Result : SearchResult :=
  { id := "c6", title := "o/r", type := ResultType.code, source := "o/r", url := "",
    snippet := some "x\ny\na foo b\nz\nw", lineNumbers := some [1, 2, 3, 4, 5],
    timestamp := "" }

/-- Base result for the stars-monotonicity witness (its stars field is varied
by the witness). -/
def c9Base : SearchResult :=
  { id := "c9", title := "", type := ResultType.repository, source := "", url := "",
    timestamp := "" }

/-- The code element of the enrichment witness run (second output element). -/
def c3wCode : SearchResult := c3wOutput.getD 1 dummyResult

/-- The repository-map entry found for the witness code result's source. -/
def c3wRepo : SearchResult :=
  (repoLookup (repoResultsOf ([c3wRepoItem].map repoItemToResult))
    c3wCode.source).getD dummyResult

/-! ## General lemmas about the string primitives -/

theorem splitCharList_ne_nil (sep : Char) (cs : List Char) :
    splitCharList sep cs ≠ [] := by
  induction cs with
  | nil => simp [splitCharList]
  | cons c cs ih =>
    by_cases h : c = sep
    · simp [splitCharList, h]
    · simp only [splitCharList, if_neg h]
      cases h2 : splitCharList sep cs with
      | nil => exact absurd h2 ih
      | cons t ts => simp

theorem splitCharList_pieces_no_sep (sep : Char) (cs : List Char) :
    ∀ piece ∈ splitCharList sep cs, sep ∉ piece := by
  induction cs with
  | nil =>
    intro piece hp
    simp [splitCharList] at hp
    simp [hp]
  | cons c cs ih =>
    intro piece hp
    by_cases h : c = sep
    · simp only [splitCharList, if_pos h] at hp
      rcases List.mem_cons.mp hp with rfl | hp2
      · simp
      · exact ih piece hp2
    · simp only [splitCharList, if_neg h] at hp
      cases h2 : splitCharList sep cs with
      | nil => exact absurd h2 (splitCharList_ne_nil sep cs)
      | cons t ts =>
        rw [h2] at hp
        rcases List.mem_cons.mp hp with rfl | hp2
        · intro hmem
          rcases List.mem_cons.mp hmem with hc | hmem2
          · exact h hc.symm
          · exact ih t (by rw [h2]; exact List.mem_cons_self t ts) hmem2
        · exact ih piece (by rw [h2]; exact List.mem_cons_of_mem t hp2)

theorem splitCharList_of_no_sep (sep : Char) (x : List Char) (h : sep ∉ x) :
    splitCharList sep x = [x] := by
  induction x with
  | nil => simp [splitCharList]
  | cons c cs ih =>
    have hc : ¬ c = sep := fun e => h (by rw [← e]; exact List.mem_cons_self c cs)
    simp only [splitCharList, if_neg hc]
    rw [ih (fun hm => h (List.mem_cons_of_mem c hm))]

theorem splitCharList_append_sep (sep : Char) (x rest : List Char) (h : sep ∉ x) :
    splitCharList sep (x ++ sep :: rest) = x :: splitCharList sep rest := by
  induction x with
  | nil => simp [splitCharList]
  | cons c cs ih =>
    have hc : ¬ c = sep := fun e => h (by rw [← e]; exact List.mem_cons_self c cs)
    simp only [List.cons_append, splitCharList, if_neg hc, List.append_eq]
    rw [ih (fun hm => h (List.mem_cons_of_mem c hm))]

theorem splitCharList_joinCharList (sep : Char) :
    ∀ l : List (List Char), l ≠ [] → (∀ piece ∈ l, sep ∉ piece) →
      splitCharList sep (joinCharList sep l) = l := by
  intro l
  induction l with
  | nil => intro h; exact absurd rfl h
  | cons x xs ih =>
    intro _ hpieces
    cases xs with
    | nil =>
      simpa [joinCharList] using splitCharList_of_no_sep sep x (hpieces x (by simp))
    | cons y ys =>
      have hjoin : joinCharList sep (x :: y :: ys) = x ++ sep :: joinCharList sep (y :: ys) := rfl
      rw [hjoin, splitCharList_append_sep sep _ _ (hpieces x (by simp)),
          ih (by simp) (fun piece hp => hpieces piece (List.mem_cons_of_mem x hp))]

theorem stringMk_data (cs : List Char) : (String.mk cs).data = cs := rfl

theorem stringMk_of_data (s : String) : String.mk s.data = s := by
  cases s
  rfl

theorem jsSplitNewline_ne_nil (content : String) : jsSplitNewline content ≠ [] := by
  unfold jsSplitNewline
  simp [splitCharList_ne_nil]

theorem jsSplitNewline_no_newline (content : String) :
    ∀ s ∈ jsSplitNewline content, '\n' ∉ s.data := by
  intro s hs
  unfold jsSplitNewline at hs
  rcases List.mem_map.mp hs with ⟨piece, hp, rfl⟩
  rw [stringMk_data]
  exact splitCharList_pieces_no_sep '\n' content.data piece hp

theorem jsSplitNewline_strJoinNewline (l : List String) (h : l ≠ [])
    (h2 : ∀ s ∈ l, '\n' ∉ s.data) :
    jsSplitNewline (strJoinNewline l) = l := by
  unfold jsSplitNewline strJoinNewline
  rw [stringMk_data, splitCharList_joinCharList _ _ (by simpa using h)
      (by intro piece hp
          rcases List.mem_map.mp hp with ⟨s, hs, rfl⟩
          exact h2 s hs)]
  rw [List.map_map]
  conv_rhs => rw [← List.map_id l]
  exact List.map_congr_left (fun s _ => stringMk_of_data s)

theorem mem_matchingIdxAux_lt (p : String → Bool) :
    ∀ (lines : List String) (i m : Nat), m ∈ matchingIdxAux p i lines →
      m < i + lines.length := by
  intro lines
  induction lines with
  | nil => intro i m hm; simp [matchingIdxAux] at hm
  | cons l ls ih =>
    intro i m hm
    simp only [matchingIdxAux] at hm
    by_cases h : p l
    · rw [if_pos h] at hm
      rcases List.mem_cons.mp hm with rfl | hm2
      · simp only [List.length_cons]
        omega
      · have := ih (i + 1) m hm2
        simp only [List.length_cons]
        omega
    · rw [if_neg h] at hm
      have := ih (i + 1) m hm
      simp only [List.length_cons]
      omega

theorem mem_matchingLineIndices_lt (p : String → Bool) (lines : List String)
    (m : Nat) (hm : m ∈ matchingLineIndices p lines) : m < lines.length := by
  have := mem_matchingIdxAux_lt p lines 0 m hm
  omega

theorem intRange_length (lo hi : Int) :
    (intRange lo hi).length = (hi + 1 - lo).toNat := by
  simp [intRange]

theorem mem_intRange (lo hi x : Int) (hx : x ∈ intRange lo hi) :
    lo ≤ x ∧ x ≤ hi := by
  unfold intRange at hx
  rcases List.mem_map.mp hx with ⟨k, hk, rfl⟩
  have := List.mem_range.mp hk
  omega

/-! ## Lemmas about the snippet builder -/

theorem snipStep_merge_eq (lines : List String) (st : SnipState) (m : Nat)
    (h : max 0 ((m : Int) - 2) ≤ st.lastLineAdded + 1) :
    snipStep lines st m =
      { snippetLines := st.snippetLines ++
          (intRange (st.lastLineAdded + 1) (min ((lines.length : Int) - 1) ((m : Int) + 2))).map
            (fun i => jsIdx lines i)
        lineNumbers := st.lineNumbers ++
          (intRange (st.lastLineAdded + 1) (min ((lines.length : Int) - 1) ((m : Int) + 2))).map
            (fun i => i + 1)
        lastLineAdded := min ((lines.length : Int) - 1) ((m : Int) + 2) } := by
  simp only [snipStep]
  rw [if_pos h]

theorem snipStep_sep_eq (lines : List String) (st : SnipState) (m : Nat)
    (h : ¬ max 0 ((m : Int) - 2) ≤ st.lastLineAdded + 1)
    (h2 : 0 < st.snippetLines.length) :
    snipStep lines st m =
      { snippetLines := (st.snippetLines ++ ["..."]) ++
          (intRange (max 0 ((m : Int) - 2)) (min ((lines.length : Int) - 1) ((m : Int) + 2))).map
            (fun i => jsIdx lines i)
        lineNumbers := (st.lineNumbers ++ [-1]) ++
          (intRange (max 0 ((m : Int) - 2)) (min ((lines.length : Int) - 1) ((m : Int) + 2))).map
            (fun i => i + 1)
        lastLineAdded := min ((lines.length : Int) - 1) ((m : Int) + 2) } := by
  simp only [snipStep]
  rw [if_neg h, if_pos h2]

theorem snipStep_new_empty_eq (lines : List String) (st : SnipState) (m : Nat)
    (h : ¬ max 0 ((m : Int) - 2) ≤ st.lastLineAdded + 1)
    (h2 : ¬ 0 < st.snippetLines.length) :
    snipStep lines st m =
      { snippetLines := st.snippetLines ++
          (intRange (max 0 ((m : Int) - 2)) (min ((lines.length : Int) - 1) ((m : Int) + 2))).map
            (fun i => jsIdx lines i)
        lineNumbers := st.lineNumbers ++
          (intRange (max 0 ((m : Int) - 2)) (min ((lines.length : Int) - 1) ((m : Int) + 2))).map
            (fun i => i + 1)
        lastLineAdded := min ((lines.length : Int) - 1) ((m : Int) + 2) } := by
  simp only [snipStep]
  rw [if_neg h, if_neg h2]

theorem snipStep_init (lines : List String) (m : Nat) :
    snipStep lines { snippetLines := [], lineNumbers := [], lastLineAdded := -1 } m =
      { snippetLines :=
          (intRange (max 0 ((m : Int) - 2)) (min ((lines.length : Int) - 1) ((m : Int) + 2))).map
            (fun i => jsIdx lines i)
        lineNumbers :=
          (intRange (max 0 ((m : Int) - 2)) (min ((lines.length : Int) - 1) ((m : Int) + 2))).map
            (fun i => i + 1)
        lastLineAdded := min ((lines.length : Int) - 1) ((m : Int) + 2) } := by
  by_cases h : max 0 ((m : Int) - 2) ≤ (-1 : Int) + 1
  · rw [snipStep_merge_eq lines _ m h]
    have hmax : max 0 ((m : Int) - 2) = 0 := by omega
    have hinit : (-1 : Int) + 1 = 0 := by norm_num
    simp [hmax, hinit]
  · rw [snipStep_new_empty_eq lines _ m h (by simp)]
    simp

theorem snipStep_length_le (lines : List String) (st : SnipState) (m : Nat) :
    st.snippetLines.length ≤ (snipStep lines st m).snippetLines.length := by
  by_cases h : max 0 ((m : Int) - 2) ≤ st.lastLineAdded + 1
  · rw [snipStep_merge_eq lines st m h]
    simp
  · by_cases h2 : 0 < st.snippetLines.length
    · rw [snipStep_sep_eq lines st m h h2]
      simp
    · rw [snipStep_new_empty_eq lines st m h h2]
      simp

theorem foldl_snipStep_length_le (lines : List String) (ms : List Nat) :
    ∀ st : SnipState,
      st.snippetLines.length ≤ (ms.foldl (snipStep lines) st).snippetLines.length := by
  induction ms with
  | nil => intro st; simp
  | cons m rest ih =>
    intro st
    calc st.snippetLines.length ≤ (snipStep lines st m).snippetLines.length :=
          snipStep_length_le lines st m
      _ ≤ _ := ih (snipStep lines st m)

theorem snipStep_invariant (lines : List String) (st : SnipState) (m : Nat)
    (h : snipInvariant st) : snipInvariant (snipStep lines st m) := by
  obtain ⟨hlen, hzip, hlast⟩ := h
  have hN : (0 : Int) ≤ (lines.length : Int) := Int.ofNat_nonneg _
  have hmin : (-1 : Int) ≤ min ((lines.length : Int) - 1) ((m : Int) + 2) := by omega
  by_cases hb : max 0 ((m : Int) - 2) ≤ st.lastLineAdded + 1
  · rw [snipStep_merge_eq lines st m hb]
    refine ⟨by simp [hlen], ?_, hmin⟩
    intro q hq
    rw [List.zip_append (by simp [hlen])] at hq
    rcases List.mem_append.mp hq with hq | hq
    · exact hzip q hq
    · rw [List.zip_map'] at hq
      rcases List.mem_map.mp hq with ⟨i, hi, rfl⟩
      intro habs
      have := (mem_intRange _ _ i hi).1
      simp only at habs
      omega
  · by_cases h2 : 0 < st.snippetLines.length
    · rw [snipStep_sep_eq lines st m hb h2]
      refine ⟨by simp [hlen], ?_, hmin⟩
      intro q hq
      rw [List.zip_append (by simp [hlen])] at hq
      rcases List.mem_append.mp hq with hq | hq
      · rw [List.zip_append hlen] at hq
        rcases List.mem_append.mp hq with hq | hq
        · exact hzip q hq
        · simp at hq
          simp [hq]
      · rw [List.zip_map'] at hq
        rcases List.mem_map.mp hq with ⟨i, hi, rfl⟩
        intro habs
        have h0 := (mem_intRange _ _ i hi).1
        simp only at habs
        omega
    · rw [snipStep_new_empty_eq lines st m hb h2]
      refine ⟨by simp [hlen], ?_, hmin⟩
      intro q hq
      rw [List.zip_append (by simp [hlen])] at hq
      rcases List.mem_append.mp hq with hq | hq
      · exact hzip q hq
      · rw [List.zip_map'] at hq
        rcases List.mem_map.mp hq with ⟨i, hi, rfl⟩
        intro habs
        have h0 := (mem_intRange _ _ i hi).1
        simp only at habs
        omega

theorem foldl_snipStep_invariant (lines : List String) (ms : List Nat) :
    ∀ st : SnipState, snipInvariant st →
      snipInvariant (ms.foldl (snipStep lines) st) := by
  induction ms with
  | nil => intro st h; simpa using h
  | cons m rest ih =>
    intro st h
    exact ih (snipStep lines st m) (snipStep_invariant lines st m h)

theorem jsIdx_no_newline (lines : List String)
    (hlines : ∀ s ∈ lines, '\n' ∉ s.data) (i : Int) :
    '\n' ∉ (jsIdx lines i).data := by
  unfold jsIdx
  split
  · simp
  · cases hget : lines.get? i.toNat with
    | none =>
      rw [List.getD_eq_get?, hget]
      simp
    | some s =>
      rw [List.getD_eq_get?, hget]
      exact hlines s (List.get?_mem hget)

theorem snipStep_no_newline (lines : List String) (st : SnipState) (m : Nat)
    (hlines : ∀ s ∈ lines, '\n' ∉ s.data)
    (h : ∀ s ∈ st.snippetLines, '\n' ∉ s.data) :
    ∀ s ∈ (snipStep lines st m).snippetLines, '\n' ∉ s.data := by
  intro s hs
  by_cases hb : max 0 ((m : Int) - 2) ≤ st.lastLineAdded + 1
  · rw [snipStep_merge_eq lines st m hb] at hs
    rcases List.mem_append.mp hs with hs | hs
    · exact h s hs
    · rcases List.mem_map.mp hs with ⟨i, _, rfl⟩
      exact jsIdx_no_newline lines hlines i
  · by_cases h2 : 0 < st.snippetLines.length
    · rw [snipStep_sep_eq lines st m hb h2] at hs
      rcases List.mem_append.mp hs with hs | hs
      · rcases List.mem_append.mp hs with hs | hs
        · exact h s hs
        · simp at hs
          subst hs
          decide
      · rcases List.mem_map.mp hs with ⟨i, _, rfl⟩
        exact jsIdx_no_newline lines hlines i
    · rw [snipStep_new_empty_eq lines st m hb h2] at hs
      rcases List.mem_append.mp hs with hs | hs
      · exact h s hs
      · rcases List.mem_map.mp hs with ⟨i, _, rfl⟩
        exact jsIdx_no_newline lines hlines i

theorem foldl_snipStep_no_newline (lines : List String) (ms : List Nat)
    (hlines : ∀ s ∈ lines, '\n' ∉ s.data) :
    ∀ st : SnipState, (∀ s ∈ st.snippetLines, '\n' ∉ s.data) →
      ∀ s ∈ (ms.foldl (snipStep lines) st).snippetLines, '\n' ∉ s.data := by
  induction ms with
  | nil => intro st h; simpa using h
  | cons m rest ih =>
    intro st h
    exact ih (snipStep lines st m) (snipStep_no_newline lines st m hlines h)

theorem buildSnippet_invariant (lines : List String) (ms : List Nat) :
    (buildSnippet lines ms).2.length = (buildSnippet lines ms).1.length ∧
    ∀ q ∈ (buildSnippet lines ms).2.zip (buildSnippet lines ms).1,
      q.1 = -1 → q.2 = "..." := by
  have h := foldl_snipStep_invariant lines ms
    { snippetLines := [], lineNumbers := [], lastLineAdded := -1 }
    ⟨rfl, by simp, by norm_num⟩
  exact ⟨h.1, h.2.1⟩

theorem buildSnippet_no_newline (lines : List String) (ms : List Nat)
    (hlines : ∀ s ∈ lines, '\n' ∉ s.data) :
    ∀ s ∈ (buildSnippet lines ms).1, '\n' ∉ s.data := by
  exact foldl_snipStep_no_newline lines ms hlines _ (by simp)

theorem buildSnippet_fst_ne_nil (lines : List String) (m : Nat) (rest : List Nat)
    (hm : m < lines.length) : (buildSnippet lines (m :: rest)).1 ≠ [] := by
  have hfirst : 0 <
      (snipStep lines { snippetLines := [], lineNumbers := [], lastLineAdded := -1 } m).snippetLines.length := by
    rw [snipStep_init]
    rw [List.length_map, intRange_length]
    have hmN : (m : Int) < (lines.length : Int) := by exact_mod_cast hm
    omega
  have hle := foldl_snipStep_length_le lines rest
    (snipStep lines { snippetLines := [], lineNumbers := [], lastLineAdded := -1 } m)
  intro habs
  have : (buildSnippet lines (m :: rest)).1.length = 0 := by rw [habs]; rfl
  unfold buildSnippet at this
  simp only [List.foldl_cons] at this
  omega

theorem snippetInvariant_of (nums : List Int) (snipLines : List String)
    (hlen : nums.length = snipLines.length)
    (hzip : ∀ q ∈ nums.zip snipLines, q.1 = -1 → q.2 = "...")
    (hne : snipLines ≠ []) (hnn : ∀ s ∈ snipLines, '\n' ∉ s.data) :
    (nums.length == (jsSplitNewline (strJoinNewline snipLines)).length &&
      (nums.zip (jsSplitNewline (strJoinNewline snipLines))).all
        (fun p => !(p.1 == -1) || p.2 == "...")) = true := by
  rw [jsSplitNewline_strJoinNewline snipLines hne hnn]
  rw [Bool.and_eq_true]
  constructor
  · exact beq_iff_eq.mpr hlen
  · rw [List.all_eq_true]
    intro p hp
    by_cases h1 : p.1 = -1
    · have := hzip p hp h1
      simp [this]
    · simp [h1]

/-- C4, counterexample: for the no-match fallback snippet of a file with fewer
than 10 lines, fetchGitHubCodeSnippets hard-codes 10 line numbers while the
snippet has only the file's lines, so the claimed length invariant fails: a
one-line file with no matching line gets snippet "foo" (one line) but line
numbers 1..10. -/
theorem c4_counterexample :
    (buildCodeResult "zzz" "t" c4Item "foo").lineNumbers =
        some [1, 2, 3, 4, 5, 6, 7, 8, 9, 10] ∧
    (buildCodeResult "zzz" "t" c4Item "foo").snippet = some "foo" ∧
    matchingLineIndices (codeLineMatches "zzz") (jsSplitNewline "foo") = [] ∧
    snippetLineInvariant (buildCodeResult "zzz" "t" c4Item "foo") = false :=
  ⟨by decide, by decide, by decide, by decide⟩

/-- C4 (amended): for every code result built by fetchGitHubCodeSnippets whose
file has at least one matching line, or whose no-match fallback applies to a
file with at least 10 lines, the lineNumbers length equals the number of
snippet lines and a -1 sentinel is only ever paired with the ellipsis
separator line, never with a highlighted content line. (The unamended claim
fails only for the fallback snippet of a file with fewer than 10 lines, where
the source hard-codes 10 line numbers.) -/
theorem c4_lineNumbers_invariant (query nowIso : String) (item : CodeItem)
    (content : String)
    (h : matchingLineIndices (codeLineMatches query) (jsSplitNewline content) ≠ [] ∨
         10 ≤ (jsSplitNewline content).length) :
    snippetLineInvariant (buildCodeResult query nowIso item content) = true := by
  simp only [buildCodeResult, snippetLineInvariant]
  by_cases hempty : (matchingLineIndices (codeLineMatches query) (jsSplitNewline content)).isEmpty
  · rw [if_pos hempty]
    have h10 : 10 ≤ (jsSplitNewline content).length := by
      rcases h with h | h
      · exact absurd (List.isEmpty_iff.mp hempty) h
      · exact h
    rw [Bool.and_eq_true]
    constructor
    · rw [jsSplitNewline_strJoinNewline ((jsSplitNewline content).take 10)
          (by
            intro habs
            have hl := congrArg List.length habs
            rw [List.length_take] at hl
            simp only [List.length_nil] at hl
            omega)
          (fun s hs => jsSplitNewline_no_newline content s (List.take_subset 10 _ hs))]
      simp
      omega
    · rw [List.all_eq_true]
      intro p hp
      have hp1 := (List.mem_zip hp).1
      rcases List.mem_map.mp hp1 with ⟨k, _, hk⟩
      have : p.1 ≠ -1 := by omega
      simp [this]
  · rw [if_neg hempty]
    obtain ⟨m, rest, hm⟩ : ∃ m rest,
        matchingLineIndices (codeLineMatches query) (jsSplitNewline content) = m :: rest := by
      cases hc : matchingLineIndices (codeLineMatches query) (jsSplitNewline content) with
      | nil => rw [hc] at hempty; exact absurd rfl hempty
      | cons m rest => exact ⟨m, rest, rfl⟩
    have hmlt : m < (jsSplitNewline content).length :=
      mem_matchingLineIndices_lt _ _ m (by rw [hm]; exact List.mem_cons_self m rest)
    have hinv := buildSnippet_invariant (jsSplitNewline content)
      (matchingLineIndices (codeLineMatches query) (jsSplitNewline content))
    have hne : (buildSnippet (jsSplitNewline content)
        (matchingLineIndices (codeLineMatches query) (jsSplitNewline content))).1 ≠ [] := by
      rw [hm]
      exact buildSnippet_fst_ne_nil _ m rest hmlt
    exact snippetInvariant_of _ _ hinv.1 hinv.2 hne
      (buildSnippet_no_newline _ _ (jsSplitNewline_no_newline content))

/-- C4 witness: a file with a matching line satisfies the amended invariant. -/
theorem c4_lineNumbers_invariant_witness :
    (matchingLineIndices (codeLineMatches "foo") (jsSplitNewline "a\nfoo b\nc") ≠ [] ∨
      10 ≤ (jsSplitNewline "a\nfoo b\nc").length) ∧
    snippetLineInvariant (buildCodeResult "foo" "t" c4Item "a\nfoo b\nc") = true :=
  ⟨Or.inl (by decide),
    c4_lineNumbers_invariant "foo" "t" c4Item "a\nfoo b\nc" (Or.inl (by decide))⟩

/-- C5, counterexample: two matching lines exactly 5 lines apart are more than
4 lines apart, yet the built snippet contains no -1 sentinel, because the
second window (start m2 - 2 = 3) touches the extended first window
(last line m1 + 2 = 2) and the builder merges them; the separator only
appears for gaps of more than 5 lines. -/
theorem c5_counterexample :
    matchingLineIndices (fun l => l == "m") c5Lines = [0, 5] ∧
    4 < 5 - 0 ∧
    (buildSnippet c5Lines (matchingLineIndices (fun l => l == "m") c5Lines)).2.count (-1) = 0 :=
  ⟨by decide, by decide, by decide⟩

/-- C5 (amended): for a file with exactly two matching lines more than 5 lines
apart (rather than the claimed more than 4: at distance exactly 5 the windows
touch and merge), the snippet's line numbers are the first match's context
window, one -1 sentinel, then the second match's context window, so exactly
one -1 sentinel sits between the two windows. -/
theorem c5_separator (p : String → Bool) (lines : List String) (m1 m2 : Nat)
    (hidx : matchingLineIndices p lines = [m1, m2]) (hgap : m1 + 5 < m2) :
    (buildSnippet lines (matchingLineIndices p lines)).2 =
      (intRange (max 0 ((m1 : Int) - 2)) ((m1 : Int) + 2)).map (fun i => i + 1) ++
        -1 :: (intRange ((m2 : Int) - 2)
          (min ((lines.length : Int) - 1) ((m2 : Int) + 2))).map (fun i => i + 1) ∧
    (buildSnippet lines (matchingLineIndices p lines)).2.count (-1) = 1 := by
  have hm2 : m2 < lines.length :=
    mem_matchingLineIndices_lt p lines m2 (by rw [hidx]; simp)
  have hm2I : (m2 : Int) < (lines.length : Int) := by exact_mod_cast hm2
  have hgapI : (m1 : Int) + 5 < (m2 : Int) := by exact_mod_cast hgap
  rw [hidx]
  unfold buildSnippet
  simp only [List.foldl_cons, List.foldl_nil]
  rw [snipStep_init]
  have hmin1 : min ((lines.length : Int) - 1) ((m1 : Int) + 2) = (m1 : Int) + 2 := by
    omega
  rw [hmin1]
  rw [snipStep_sep_eq _ _ _ (by simp only; omega)
      (by
        simp only [List.length_map, intRange_length]
        omega)]
  simp only
  have hmax2 : max 0 ((m2 : Int) - 2) = (m2 : Int) - 2 := by omega
  rw [hmax2]
  have heq :
      ((intRange (max 0 ((m1 : Int) - 2)) ((m1 : Int) + 2)).map (fun i => i + 1) ++ [-1]) ++
        (intRange ((m2 : Int) - 2)
          (min ((lines.length : Int) - 1) ((m2 : Int) + 2))).map (fun i => i + 1) =
      (intRange (max 0 ((m1 : Int) - 2)) ((m1 : Int) + 2)).map (fun i => i + 1) ++
        -1 :: (intRange ((m2 : Int) - 2)
          (min ((lines.length : Int) - 1) ((m2 : Int) + 2))).map (fun i => i + 1) := by
    rw [List.append_assoc, List.singleton_append]
  refine ⟨heq, ?_⟩
  rw [heq, List.count_append]
  have hcount1 :
      ((intRange (max 0 ((m1 : Int) - 2)) ((m1 : Int) + 2)).map (fun i => i + 1)).count (-1 : Int) = 0 := by
    rw [List.count_eq_zero]
    intro hmem
    rcases List.mem_map.mp hmem with ⟨i, hi, hie⟩
    have := (mem_intRange _ _ i hi).1
    omega
  have hcount2 :
      ((intRange ((m2 : Int) - 2)
        (min ((lines.length : Int) - 1) ((m2 : Int) + 2))).map (fun i => i + 1)).count (-1 : Int) = 0 := by
    rw [List.count_eq_zero]
    intro hmem
    rcases List.mem_map.mp hmem with ⟨i, hi, hie⟩
    have := (mem_intRange _ _ i hi).1
    omega
  rw [hcount1, List.count_cons, hcount2]
  simp

/-- C5 witness: matches at lines 0 and 6 of a ten-line file, 6 lines apart,
give exactly one separator. -/
theorem c5_separator_witness :
    matchingLineIndices (fun l => l == "m") c5wLines = [0, 6] ∧ 0 + 5 < 6 ∧
    (buildSnippet c5wLines (matchingLineIndices (fun l => l == "m") c5wLines)).2.count (-1) = 1 :=
  ⟨by decide, by decide,
    (c5_separator (fun l => l == "m") c5wLines 0 6 (by decide) (by decide)).2⟩

/-- C10: when the per-item raw file-content fetch of one code-search hit
fails, that hit is silently omitted (no error, no placeholder) and every other
hit is processed unchanged; fetchGitHubCodeSnippets itself still resolves with
the remaining results for any code-search outcome. -/
theorem c10_failed_fetch_omitted (query nowIso : String)
    (xs ys : List CodeItem) (bad : CodeItem) (hbad : bad.contentFetch = none) :
    codeItemsToResults query nowIso (xs ++ bad :: ys) =
      codeItemsToResults query nowIso xs ++ codeItemsToResults query nowIso ys ∧
    ∀ items : List CodeItem, jsTrim query ≠ "" →
      fetchGitHubCodeSnippetsM query nowIso (.ok items) =
        .ok (codeItemsToResults query nowIso items) := by
  constructor
  · unfold codeItemsToResults
    rw [List.filterMap_append]
    congr 1
    rw [List.filterMap_cons]
    have : processCodeItem query nowIso bad = none := by
      unfold processCodeItem
      rw [hbad]
    rw [this]
  · intro items hq
    unfold fetchGitHubCodeSnippetsM
    rw [if_neg hq]

/-- C10 witness: a failed fetch between two successful ones is dropped and the
others are kept. -/
theorem c10_witness :
    codeItemsToResults "zzz" "t" ([c3wCodeItem] ++ c10BadItem :: [c1CodeItem]) =
      codeItemsToResults "zzz" "t" [c3wCodeItem] ++
        codeItemsToResults "zzz" "t" [c1CodeItem] :=
  (c10_failed_fetch_omitted "zzz" "t" [c3wCodeItem] [c1CodeItem] c10BadItem rfl).1

theorem starsContrib_mono (s1 s2 : ℚ) (h : s1 ≤ s2) :
    (if s1 ≠ 0 then min (s1 / 100) 50 else 0) ≤
      (if s2 ≠ 0 then min (s2 / 100) 50 else 0) := by
  by_cases h1 : s1 = 0 <;> by_cases h2 : s2 = 0
  · rw [if_neg (not_not_intro h1), if_neg (not_not_intro h2)]
  · rw [if_neg (not_not_intro h1), if_pos h2]
    have hpos : 0 < s2 := lt_of_le_of_ne (h1 ▸ h) (Ne.symm h2)
    exact le_min (by positivity) (by norm_num)
  · rw [if_pos h1, if_neg (not_not_intro h2)]
    have hneg : s1 < 0 := lt_of_le_of_ne (h2 ▸ h) h1
    refine (min_le_left _ _).trans ?_
    have hd : s1 / 100 < 0 := div_neg_of_neg_of_pos hneg (by norm_num)
    linarith
  · rw [if_pos h1, if_pos h2]
    exact min_le_min ((div_le_div_right (by norm_num)).mpr h) (le_refl _)

/-- C9: calculateCombinedScore is monotonically non-decreasing in the stars
field when the query, the clock and every other field of the result are held
fixed: whenever both scores are defined, a result with more stars scores at
least as high. -/
theorem c9_stars_monotone (r : SearchResult) (query : String) (now : Int)
    (s1 s2 : ℚ) (hs : s1 ≤ s2) (v1 v2 : ℚ)
    (h1 : calculateCombinedScore { r with stars := some s1 } query now = .ok v1)
    (h2 : calculateCombinedScore { r with stars := some s2 } query now = .ok v2) :
    v1 ≤ v2 := by
  dsimp only [calculateCombinedScore] at h1 h2
  cases hsnip : (match r.snippet with
    | some sn =>
      if sn ≠ "" then snippetTermsScore (jsToLower sn) (jsSplitWhitespace (jsToLower query))
      else Except.ok 0
    | none => Except.ok 0) with
  | error e =>
    rw [hsnip] at h1
    exact absurd h1 (by simp)
  | ok sc =>
    rw [hsnip] at h1 h2
    have e1 := Except.ok.inj h1
    have e2 := Except.ok.inj h2
    have hmono := starsContrib_mono s1 s2 hs
    linarith [e1, e2]

/-- C9 witness: at stars 0 and 1 the two scores are defined and ordered. -/
theorem c9_stars_monotone_witness :
    (0 : ℚ) ≤ 1 ∧
    (calculateCombinedScore { c9Base with stars := some 0 } "a" 0).toOption.getD 0 ≤
      (calculateCombinedScore { c9Base with stars := some 1 } "a" 0).toOption.getD 0 :=
  ⟨by norm_num,
    c9_stars_monotone c9Base "a" 0 0 1 (by norm_num)
      ((calculateCombinedScore { c9Base with stars := some 0 } "a" 0).toOption.getD 0)
      ((calculateCombinedScore { c9Base with stars := some 1 } "a" 0).toOption.getD 0)
      rfl rfl⟩

/-- C7: the highlight-matcher builder never throws for any query and option
combination (it is a total function into an optional matcher); with
useRegex enabled and an invalid pattern it returns null, and rendering with a
null matcher marks no content line as highlighted, so the text degrades to
unhighlighted rendering instead of propagating an error. -/
theorem c7_invalid_regex_returns_null (opts : SearchOptions) (query : String)
    (huse : opts.useRegex = true) (hinvalid : jsPatternValid query = false) :
    createSearchRegex opts query = none ∧
    ∀ (matchesOnly : Bool) (nums : List Int) (idx : Nat) (lines : List String)
      (n : Option Int) (t : String) (hl : Bool),
      RenderedLine.content n t hl ∈ renderSnippetAux none matchesOnly nums idx lines →
      hl = false := by
  constructor
  · unfold createSearchRegex
    by_cases hq : jsTrim query = ""
    · rw [if_pos hq]
    · rw [if_neg hq]
      simp only [huse, if_pos]
      rw [if_neg (by rw [hinvalid]; simp)]
  · intro matchesOnly nums idx lines
    induction lines generalizing idx with
    | nil => intro n t hl hmem; simp [renderSnippetAux] at hmem
    | cons line rest ih =>
      intro n t hl hmem
      unfold renderSnippetAux at hmem
      by_cases hsep : nums.get? idx = some (-1)
      · rw [if_pos hsep] at hmem
        rcases List.mem_cons.mp hmem with habs | hmem2
        · exact absurd habs (by simp)
        · exact ih (idx + 1) n t hl hmem2
      · rw [if_neg hsep] at hmem
        simp only at hmem
        cases matchesOnly with
        | true =>
          simp only [Bool.not_false, Bool.and_self, if_pos] at hmem
          exact ih (idx + 1) n t hl hmem
        | false =>
          simp only [Bool.false_and, Bool.if_false_left] at hmem
          rcases List.mem_cons.mp hmem with heq | hmem2
          · exact (RenderedLine.content.inj heq).2.2
          · exact ih (idx + 1) n t hl hmem2

/-- C7 witness: the invalid pattern of a lone opening group returns no
matcher. -/
theorem c7_invalid_regex_returns_null_witness :
    createSearchRegex
      { matchWholeWord := false, matchCase := false, useRegex := true,
        highlightMatchesOnly := true } "(" = none :=
  (c7_invalid_regex_returns_null
    { matchWholeWord := false, matchCase := false, useRegex := true,
      highlightMatchesOnly := true } "(" rfl (by decide)).1

/-- C6: with highlightMatchesOnly enabled, a five-line snippet with no
separator rows in which exactly the third line matches the active search
regex renders as exactly that one content line (highlighted), and the
reported match count is 1: it counts matching lines, not substring
occurrences. -/
theorem c6_matches_only_line3 (opts : SearchOptions) (query : String)
    (r : JsRegex) (res : SearchResult) (snip : String)
    (l1 l2 l3 l4 l5 : String) (n1 n2 n3 n4 n5 : Int)
    (hopts : opts.highlightMatchesOnly = true)
    (hregex : createSearchRegex opts query = some r)
    (hsnip : res.snippet = some snip) (hne : snip ≠ "")
    (hlines : jsSplitNewline snip = [l1, l2, l3, l4, l5])
    (hnums : res.lineNumbers = some [n1, n2, n3, n4, n5])
    (h1 : n1 ≠ -1) (h2 : n2 ≠ -1) (h3 : n3 ≠ -1) (h4 : n4 ≠ -1) (h5 : n5 ≠ -1)
    (hm3 : jsTest r l3 = true)
    (hm1 : jsTest r l1 = false) (hm2 : jsTest r l2 = false)
    (hm4 : jsTest r l4 = false) (hm5 : jsTest r l5 = false) :
    getEnhancedCodeSnippet opts res query =
      some ([RenderedLine.content (some n3) l3 true], 1) := by
  unfold getEnhancedCodeSnippet
  rw [hsnip]
  simp only
  rw [if_neg hne, hnums, hregex, hlines]
  simp only [Option.getD_some, List.length_cons, List.length_nil]
  rw [if_pos (by omega)]
  have hget0 : [n1, n2, n3, n4, n5].get? 0 = some n1 := rfl
  have hget1 : [n1, n2, n3, n4, n5].get? 1 = some n2 := rfl
  have hget2 : [n1, n2, n3, n4, n5].get? 2 = some n3 := rfl
  have hget3 : [n1, n2, n3, n4, n5].get? 3 = some n4 := rfl
  have hget4 : [n1, n2, n3, n4, n5].get? 4 = some n5 := rfl
  rw [hopts]
  simp only [Option.some.injEq, Prod.mk.injEq]
  constructor
  · unfold renderSnippetAux
    rw [hget0, if_neg (by simp [h1])]
    simp only [hm1, hopts]
    rw [if_pos (by simp)]
    unfold renderSnippetAux
    rw [hget1, if_neg (by simp [h2])]
    simp only [hm2]
    rw [if_pos (by simp)]
    unfold renderSnippetAux
    rw [hget2, if_neg (by simp [h3])]
    simp only [hm3]
    rw [if_neg (by simp)]
    unfold renderSnippetAux
    rw [hget3, if_neg (by simp [h4])]
    simp only [hm4]
    rw [if_pos (by simp)]
    unfold renderSnippetAux
    rw [hget4, if_neg (by simp [h5])]
    simp only [hm5]
    rw [if_pos (by simp)]
    unfold renderSnippetAux
    rfl
  · simp [snippetMatchCount, snippetMatchCountAux, hm1, hm2, hm3, hm4, hm5, h3]

/-- C6 witness: the default options with query foo on a five-line snippet
whose third line is the only match. -/
theorem c6_matches_only_line3_witness :
    getEnhancedCodeSnippet
      { matchWholeWord := false, matchCase := false, useRegex := false,
        highlightMatchesOnly := true } c6Result "foo" =
      some ([RenderedLine.content (some 3) "a foo b" true], 1) :=
  c6_matches_only_line3
    { matchWholeWord := false, matchCase := false, useRegex := false,
      highlightMatchesOnly := true } "foo"
    { source := "foo", ignoreCase := true } c6Result
    "x\ny\na foo b\nz\nw" "x" "y" "a foo b" "z" "w" 1 2 3 4 5
    rfl (by decide) rfl (by decide) (by decide) rfl
    (by decide) (by decide) (by decide) (by decide) (by decide)
    (by decide) (by decide) (by decide) (by decide) (by decide)

/-- C2: whenever both upstream fetches fail, or both succeed with zero items,
fetchSearchResults rejects with a descriptive human-readable message: the two
per-source failure messages joined after a search-failed prefix, or the final
no-results message, or the empty-query message; and the fixed messages of the
failure taxonomy are pairwise distinct. -/
theorem c2_total_failure_rejects (query nowIso : String) (now : Int)
    (f1 f2 : UpstreamFailure) :
    (fetchSearchResults query now nowIso (.error f1) (.error f2) =
      .error (if jsTrim query = "" then "Search query cannot be empty"
        else "Search failed: " ++ joinSemicolon
          ["Repository search: " ++ translateGitHubError f1,
           "Code search: " ++ translateGitHubError f2])) ∧
    (fetchSearchResults query now nowIso (.ok []) (.ok []) =
      .error (if jsTrim query = "" then "Search query cannot be empty"
        else "No results found for your search query. Try different search terms.")) ∧
    List.Pairwise (fun a b => a ≠ b)
      ["Search query cannot be empty",
       "GitHub API authentication failed. Please check your API token.",
       "GitHub API rate limit exceeded. Please try again later.",
       "Invalid search query. Please check your search terms.",
       "Network error. Please check your internet connection.",
       "No results found for your search query. Try different search terms."] ∧
    translateGitHubError (.http 401 none "") =
      "GitHub API authentication failed. Please check your API token." ∧
    translateGitHubError (.http 403 none "") =
      "GitHub API rate limit exceeded. Please try again later." ∧
    translateGitHubError (.http 422 none "") =
      "Invalid search query. Please check your search terms." ∧
    translateGitHubError (.network "ENOTFOUND" "") =
      "Network error. Please check your internet connection." := by
  refine ⟨?_, ?_, by decide, by decide, by decide, by decide, by decide⟩
  · by_cases hq : jsTrim query = ""
    · rw [if_pos hq]
      unfold fetchSearchResults
      rw [if_pos hq]
    · rw [if_neg hq]
      unfold fetchSearchResults fetchGitHubRepositoriesM fetchGitHubCodeSnippetsM
      rw [if_neg hq]
      simp only [if_neg hq]
      rfl
  · by_cases hq : jsTrim query = ""
    · rw [if_pos hq]
      unfold fetchSearchResults
      rw [if_pos hq]
    · rw [if_neg hq]
      unfold fetchSearchResults fetchGitHubRepositoriesM fetchGitHubCodeSnippetsM
      rw [if_neg hq]
      simp only [if_neg hq]
      rfl

theorem snippetTermsScore_ok (s : String) (ts : List String)
    (h : ∀ t ∈ ts, jsPatternValid t = true) :
    ∃ v, snippetTermsScore s ts = .ok v := by
  induction ts with
  | nil => exact ⟨0, rfl⟩
  | cons t rest ih =>
    obtain ⟨v, hv⟩ := ih (fun x hx => h x (List.mem_cons_of_mem t hx))
    refine ⟨min ((countOccurrences t s : ℚ) * 2) 20 + v, ?_⟩
    unfold snippetTermsScore
    rw [if_pos (h t (List.mem_cons_self t rest)), hv]

theorem calculateCombinedScore_ok (r : SearchResult) (query : String) (now : Int)
    (hterms : ∀ t ∈ jsSplitWhitespace (jsToLower query), jsPatternValid t = true) :
    ∃ v, calculateCombinedScore r query now = .ok v := by
  have hsnip : ∃ sc, (match r.snippet with
      | some sn =>
        if sn ≠ "" then
          snippetTermsScore (jsToLower sn) (jsSplitWhitespace (jsToLower query))
        else Except.ok 0
      | none => Except.ok 0) = Except.ok sc := by
    cases hs : r.snippet with
    | none => exact ⟨0, rfl⟩
    | some sn =>
      by_cases hsn : sn = ""
      · refine ⟨0, ?_⟩
        show (if sn ≠ "" then
            snippetTermsScore (jsToLower sn) (jsSplitWhitespace (jsToLower query))
          else Except.ok 0) = Except.ok 0
        rw [if_neg (not_not_intro hsn)]
      · obtain ⟨v, hv⟩ := snippetTermsScore_ok (jsToLower sn)
          (jsSplitWhitespace (jsToLower query)) hterms
        refine ⟨v, ?_⟩
        show (if sn ≠ "" then
            snippetTermsScore (jsToLower sn) (jsSplitWhitespace (jsToLower query))
          else Except.ok 0) = Except.ok v
        rw [if_pos hsn, hv]
  obtain ⟨sc, hsc⟩ := hsnip
  dsimp only [calculateCombinedScore]
  rw [hsc]
  exact ⟨_, rfl⟩

theorem mapScores_ok (query : String) (now : Int) (l : List SearchResult)
    (h : ∀ r ∈ l, ∃ v, calculateCombinedScore r query now = .ok v) :
    ∃ l2, mapScores query now l = .ok l2 ∧ l2.length = l.length := by
  induction l with
  | nil => exact ⟨[], rfl, rfl⟩
  | cons r rest ih =>
    obtain ⟨v, hv⟩ := h r (List.mem_cons_self r rest)
    obtain ⟨l2, hl2, hlen⟩ := ih (fun x hx => h x (List.mem_cons_of_mem r hx))
    refine ⟨{ r with score := some v } :: l2, ?_, by simp [hlen]⟩
    unfold mapScores
    rw [hv, hl2]

theorem fetchSearchResults_scored (query : String) (now : Int) (nowIso : String)
    (repoOutcome : Except UpstreamFailure (List RepoItem))
    (codeOutcome : Except UpstreamFailure (List CodeItem))
    (hq : jsTrim query ≠ "")
    (githubRepos codeSnippets : List SearchResult)
    (hr : (match fetchGitHubRepositoriesM query repoOutcome with
           | .ok l => l
           | .error _ => []) = githubRepos)
    (hc : (match fetchGitHubCodeSnippetsM query nowIso codeOutcome with
           | .ok l => l
           | .error _ => []) = codeSnippets)
    (hne : githubRepos ≠ [] ∨ codeSnippets ≠ []) :
    fetchSearchResults query now nowIso repoOutcome codeOutcome =
      mapScores query now
        (mergeResults (repoResultsOf githubRepos)
          ((codeResultsOf codeSnippets).map
            (enrichCodeResult (repoResultsOf githubRepos)))) := by
  unfold fetchSearchResults
  rw [if_neg hq]
  simp only [hr, hc]
  rw [if_neg ?cond]
  case cond =>
    intro hb
    rw [Bool.and_eq_true] at hb
    rcases hne with hne | hne
    · exact hne (List.isEmpty_iff.mp hb.1)
    · exact hne (List.isEmpty_iff.mp hb.2)

/-- C1, counterexample: with the non-empty query of a lone opening
parenthesis, the code search returns one item with fetched content, yet
fetchSearchResults rejects: calculateCombinedScore compiles each raw query
term with new RegExp, and the term is an invalid pattern, so post-merge
scoring throws even though an upstream produced a result. -/
theorem c1_counterexample :
    jsTrim "(" ≠ "" ∧
    codeItemsToResults "(" "t" [c1CodeItem] ≠ [] ∧
    fetchSearchResults "(" 0 "t" (.ok []) (.ok [c1CodeItem]) =
      .error "SyntaxError: Invalid regular expression" :=
  ⟨by decide, by decide, rfl⟩

/-- C1 (amended): for every non-empty query all of whose lowercased
whitespace-split terms are valid regular-expression patterns, if at least one
upstream fetch resolves with at least one usable result (for the code search:
at least one item whose content fetch succeeded), then fetchSearchResults
resolves with a non-empty result list and never throws. (The unamended claim
fails because post-merge scoring compiles raw query terms as regexes: see the
counterexample with query an opening parenthesis.) -/
theorem c1_success_nonempty (query nowIso : String) (now : Int)
    (repoOutcome : Except UpstreamFailure (List RepoItem))
    (codeOutcome : Except UpstreamFailure (List CodeItem))
    (hq : jsTrim query ≠ "")
    (hterms : ∀ t ∈ jsSplitWhitespace (jsToLower query), jsPatternValid t = true)
    (hsome : (∃ items, repoOutcome = .ok items ∧ items ≠ []) ∨
             (∃ citems, codeOutcome = .ok citems ∧
               codeItemsToResults query nowIso citems ≠ [])) :
    ∃ results,
      fetchSearchResults query now nowIso repoOutcome codeOutcome = .ok results ∧
      results ≠ [] := by
  rcases hsome with ⟨items, rfl, hne⟩ | ⟨citems, rfl, hne⟩
  · have hrepo : (match fetchGitHubRepositoriesM query (.ok items) with
        | .ok l => l
        | .error _ => []) = items.map repoItemToResult := by
      unfold fetchGitHubRepositoriesM
      rw [if_neg hq]
    have key := fetchSearchResults_scored query now nowIso (.ok items) codeOutcome hq
      (items.map repoItemToResult) _ hrepo rfl (Or.inl (by simpa using hne))
    obtain ⟨l2, hl2, hlen⟩ := mapScores_ok query now _
      (fun r _ => calculateCombinedScore_ok r query now hterms)
    refine ⟨l2, key.trans hl2, ?_⟩
    have hpos : 0 < (mergeResults (repoResultsOf (items.map repoItemToResult))
        ((codeResultsOf (match fetchGitHubCodeSnippetsM query nowIso codeOutcome with
          | .ok l => l
          | .error _ => [])).map
          (enrichCodeResult (repoResultsOf (items.map repoItemToResult))))).length := by
      unfold mergeResults repoResultsOf
      simp only [List.length_append, List.length_take, List.length_map]
      have : 0 < items.length := List.length_pos.mpr hne
      omega
    intro habs
    rw [habs] at hlen
    simp only [List.length_nil] at hlen
    omega
  · have hcode : (match fetchGitHubCodeSnippetsM query nowIso (.ok citems) with
        | .ok l => l
        | .error _ => []) = codeItemsToResults query nowIso citems := by
      unfold fetchGitHubCodeSnippetsM
      rw [if_neg hq]
    have key := fetchSearchResults_scored query now nowIso repoOutcome (.ok citems) hq
      _ (codeItemsToResults query nowIso citems) rfl hcode (Or.inr hne)
    obtain ⟨l2, hl2, hlen⟩ := mapScores_ok query now _
      (fun r _ => calculateCombinedScore_ok r query now hterms)
    refine ⟨l2, key.trans hl2, ?_⟩
    have hpos : 0 < (mergeResults (repoResultsOf
        (match fetchGitHubRepositoriesM query repoOutcome with
          | .ok l => l
          | .error _ => []))
        ((codeResultsOf (codeItemsToResults query nowIso citems)).map
          (enrichCodeResult (repoResultsOf
            (match fetchGitHubRepositoriesM query repoOutcome with
              | .ok l => l
              | .error _ => []))))).length := by
      unfold mergeResults codeResultsOf
      simp only [List.length_append, List.length_take, List.length_map]
      have : 0 < (codeItemsToResults query nowIso citems).length :=
        List.length_pos.mpr hne
      omega
    intro habs
    rw [habs] at hlen
    simp only [List.length_nil] at hlen
    omega

/-- C1 witness: a plain query with one valid term and one upstream repository
result yields a non-empty success. -/
theorem c1_success_nonempty_witness :
    jsTrim "zzz" ≠ "" ∧
    (∀ t ∈ jsSplitWhitespace (jsToLower "zzz"), jsPatternValid t = true) ∧
    ∃ results,
      fetchSearchResults "zzz" 0 "t" (.ok [c3wRepoItem]) (.ok []) = .ok results ∧
      results ≠ [] :=
  ⟨by decide, by decide,
    c1_success_nonempty "zzz" "t" 0 (.ok [c3wRepoItem]) (.ok []) (by decide) (by decide)
      (Or.inl ⟨[c3wRepoItem], rfl, by decide⟩)⟩

theorem mapScores_mem (query : String) (now : Int) :
    ∀ (l l2 : List SearchResult), mapScores query now l = .ok l2 →
      ∀ r2 ∈ l2, ∃ r ∈ l, ∃ v, r2 = { r with score := some v } := by
  intro l
  induction l with
  | nil =>
    intro l2 h r2 hr2
    unfold mapScores at h
    have := Except.ok.inj h
    subst this
    simp at hr2
  | cons r rest ih =>
    intro l2 h r2 hr2
    unfold mapScores at h
    cases hs : calculateCombinedScore r query now with
    | error e =>
      rw [hs] at h
      exact absurd h (by simp)
    | ok v =>
      rw [hs] at h
      cases hrest : mapScores query now rest with
      | error e =>
        rw [hrest] at h
        exact absurd h (by simp)
      | ok l3 =>
        rw [hrest] at h
        have hl2 := Except.ok.inj h
        subst hl2
        rcases List.mem_cons.mp hr2 with rfl | hr2
        · exact ⟨r, List.mem_cons_self r rest, v, rfl⟩
        · obtain ⟨x, hx, w, hw⟩ := ih l3 hrest r2 hr2
          exact ⟨x, List.mem_cons_of_mem r hx, w, hw⟩

theorem repoResultsOf_type (items : List RepoItem) :
    ∀ x ∈ repoResultsOf (items.map repoItemToResult),
      x.type = ResultType.repository := by
  intro x hx
  unfold repoResultsOf at hx
  rcases List.mem_map.mp hx with ⟨y, hy, rfl⟩
  rcases List.mem_map.mp hy with ⟨item, _, rfl⟩
  rfl

theorem mem_mergeResults (RS EC : List SearchResult) (c : SearchResult)
    (hc : c ∈ mergeResults RS EC) : c ∈ RS ∨ c ∈ EC := by
  unfold mergeResults at hc
  rcases List.mem_append.mp hc with hc2 | hc2
  · rcases List.mem_append.mp hc2 with hc3 | hc3
    · exact Or.inl (List.take_subset 3 RS hc3)
    · exact Or.inr hc3
  · by_cases hlen : RS.length > 3
    · rw [if_pos hlen] at hc2
      exact Or.inl (List.drop_subset 3 RS hc2)
    · rw [if_neg hlen] at hc2
      simp at hc2

theorem enrichCodeResult_source (RS : List SearchResult) (c : SearchResult) :
    (enrichCodeResult RS c).source = c.source := by
  unfold enrichCodeResult
  by_cases h : c.source ≠ ""
  · rw [if_pos h]
    cases hl : repoLookup RS c.source with
    | none => rfl
    | some rep => rfl
  · rw [if_neg h]

theorem enrichCodeResult_type (RS : List SearchResult) (c : SearchResult) :
    (enrichCodeResult RS c).type = c.type := by
  unfold enrichCodeResult
  by_cases h : c.source ≠ ""
  · rw [if_pos h]
    cases hl : repoLookup RS c.source with
    | none => rfl
    | some rep => rfl
  · rw [if_neg h]

/-- C3, counterexample: the enrichment guard tests the code result's source
for truthiness, so a code result whose source is the empty string is never
enriched, even though a fetched repository result has the same (empty) source:
this run returns the repository with stars 7 and the code result with its
stars still unset instead of copied. -/
theorem c3_counterexample :
    (fetchSearchResults "zzz" 0 "" (.ok [c3RepoItem]) (.ok [c3CodeItem])).toOption.map
        (fun l => (l.map (fun r => r.type), l.map (fun r => r.source),
          l.map (fun r => r.stars))) =
      some ([ResultType.repository, ResultType.code], ["", ""], [some 7, none]) := rfl

/-- C3 (amended): for every code result returned by fetchSearchResults whose
source is non-empty and matched by the repository lookup map, the merged code
result carries exactly the looked-up repository's stars, forks, watchers,
openIssues, license and topics (repository metadata is authoritative). The
unamended claim fails only for the falsy empty source, where the code skips
the lookup. -/
theorem c3_enrichment (query : String) (now : Int) (nowIso : String)
    (repoItems : List RepoItem)
    (codeOutcome : Except UpstreamFailure (List CodeItem))
    (results : List SearchResult)
    (hok : fetchSearchResults query now nowIso (.ok repoItems) codeOutcome = .ok results)
    (r : SearchResult) (hr : r ∈ results) (htype : r.type = ResultType.code)
    (hsrc : r.source ≠ "") (rep : SearchResult)
    (hrep : repoLookup (repoResultsOf (repoItems.map repoItemToResult)) r.source =
      some rep) :
    r.stars = rep.stars ∧ r.forks = rep.forks ∧ r.watchers = rep.watchers ∧
      r.openIssues = rep.openIssues ∧ r.license = rep.license ∧
      r.topics = rep.topics := by
  by_cases hq : jsTrim query = ""
  · unfold fetchSearchResults at hok
    rw [if_pos hq] at hok
    exact absurd hok (by simp)
  · have hrw : fetchGitHubRepositoriesM query (.ok repoItems) =
        .ok (repoItems.map repoItemToResult) := by
      unfold fetchGitHubRepositoriesM
      rw [if_neg hq]
    unfold fetchSearchResults at hok
    rw [if_neg hq, hrw] at hok
    dsimp only at hok
    split at hok
    · split at hok <;> exact absurd hok (by simp)
    · obtain ⟨c, hc, v, rfl⟩ := mapScores_mem query now _ results hok r hr
      rcases mem_mergeResults _ _ c hc with hcr | hcc
      · have := repoResultsOf_type repoItems c hcr
        rw [this] at htype
        exact absurd htype (by simp)
      · rcases List.mem_map.mp hcc with ⟨c1, _, rfl⟩
        have hsrc2 : c1.source ≠ "" := by
          rw [← enrichCodeResult_source (repoResultsOf (repoItems.map repoItemToResult)) c1]
          exact hsrc
        have hrep2 : repoLookup (repoResultsOf (repoItems.map repoItemToResult))
            c1.source = some rep := by
          rw [← enrichCodeResult_source (repoResultsOf (repoItems.map repoItemToResult)) c1]
          exact hrep
        show (enrichCodeResult (repoResultsOf (repoItems.map repoItemToResult)) c1).stars =
            rep.stars ∧ _
        unfold enrichCodeResult
        rw [if_pos hsrc2, hrep2]
        exact ⟨rfl, rfl, rfl, rfl, rfl, rfl⟩

/-- C3 witness: a code result over the same non-empty repository source as a
fetched repository carries that repository's metadata after the merge. -/
theorem c3_enrichment_witness :
    c3wCode ∈ c3wOutput ∧ c3wCode.source ≠ "" ∧
    (c3wCode.stars = c3wRepo.stars ∧ c3wCode.forks = c3wRepo.forks ∧
      c3wCode.watchers = c3wRepo.watchers ∧ c3wCode.openIssues = c3wRepo.openIssues ∧
      c3wCode.license = c3wRepo.license ∧ c3wCode.topics = c3wRepo.topics) :=
  ⟨by decide, by decide,
    c3_enrichment "zzz" 0 "" [c3wRepoItem] (.ok [c3wCodeItem]) c3wOutput rfl
      c3wCode (by decide) rfl (by decide) c3wRepo rfl⟩

/-- C8, counterexample: the rendered order is not governed by the composite
score stored in the score field. In this run the fetched list carries
composite scores 11 (many stars, title unrelated to the query) and 35 (no
stars, title equal to the query), but the UI sort ranks by calculateRepoScore
(300 versus 0) and renders the scores in increasing order 11, 35 — not in
non-increasing order of the composite score. -/
theorem c8_counterexample :
    fetchSearchResults "zzz" 0 "" (.ok [c8RepoA, c8RepoB]) (.ok []) = .ok c8Output ∧
    (uiSortResults 0 c8Output).map (fun r => r.score) = [some 11, some 35] ∧
    ¬ sortedByCombinedScore (uiSortResults 0 c8Output) :=
  ⟨rfl, by decide, by unfold sortedByCombinedScore; decide⟩

/-- C8 (amended): the score used for client-side ordering is
calculateRepoScore, an independent scorer, not the composite
calculateCombinedScore stored in the score field: the list rendered by
ResultsList is the input results re-sorted into non-increasing
calculateRepoScore order (a permutation of the fetched list); the stored
composite score does not drive the ordering (see the counterexample). -/
theorem c8_ui_sorted_by_repo_score (now : Int) (results : List SearchResult) :
    List.Sorted (fun a b => calculateRepoScore now b ≤ calculateRepoScore now a)
      (uiSortResults now results) ∧
    (uiSortResults now results).Perm results := by
  constructor
  · haveI : IsTotal SearchResult
        (fun a b => calculateRepoScore now b ≤ calculateRepoScore now a) :=
      ⟨fun a b => le_total _ _⟩
    haveI : IsTrans SearchResult
        (fun a b => calculateRepoScore now b ≤ calculateRepoScore now a) :=
      ⟨fun a b c hab hbc => le_trans hbc hab⟩
    exact List.sorted_insertionSort _ results
  · exact List.perm_insertionSort _ results
